import Mathlib

/-!
Verification of the session-token decoding and connection-parameter
derivation logic of `src/synth/config.ts` (the Token Decoder and the
Connection Parameter Resolver).

Strings are modelled as `List Char`; byte strings (the domain of the
base64 transcoding, which in the browser operates on one-character-per-byte
"binary strings") are modelled as `List Nat` with every element `< 256`.
Fallible platform builtins (`atob`, `JSON.parse`, `new URL`) are modelled
as `Option`-returning functions; the `try/catch` of `parseSessionToken`
routes a `none` from any stage to the decode-error result.
-/

namespace Synth

/-! ## Character constants (JSON structural characters) -/

def quoteCh : Char := Char.ofNat 34
def backslashCh : Char := Char.ofNat 92
def lbraceCh : Char := Char.ofNat 123
def rbraceCh : Char := Char.ofNat 125
def lbrackCh : Char := Char.ofNat 91
def rbrackCh : Char := Char.ofNat 93

/-! ## Base64 / base64url transcoding

`base64UrlDecode` is the source function (config.ts lines 53-62); the
`atob` builtin it calls is modelled by `atobModel`, following the WHATWG
forgiving-base64 decode (whitespace stripping omitted: no caller feeds
whitespace).  The encoder `base64UrlEncode` is not part of src/; it is
modelled from the spec ("URL-safe base64", the inverse substitutions and
padding of the decoder, producing unpadded output). -/

def b64Alphabet : List Char :=
  "ABCDEFGHIJKLMNOPQRSTUVWXYZabcdefghijklmnopqrstuvwxyz0123456789+/".data

def sixToChar (s : Nat) : Char := b64Alphabet.getD s 'A'

def idxOf (cs : List Char) (c : Char) : Option Nat :=
  match cs with
  | [] => none
  | a :: rest => if a = c then some 0 else (idxOf rest c).map (· + 1)

def charToSix (c : Char) : Option Nat := idxOf b64Alphabet c

/-- Pack bytes into 6-bit groups (big-endian base64 bit order). -/
def bytesToSixes : List Nat → List Nat
  | a :: b :: c :: rest =>
      (a / 4) :: ((a % 4) * 16 + b / 16) :: ((b % 16) * 4 + c / 64) :: (c % 64)
        :: bytesToSixes rest
  | [a, b] => [a / 4, (a % 4) * 16 + b / 16, (b % 16) * 4]
  | [a] => [a / 4, (a % 4) * 16]
  | [] => []

/-- Unpack 6-bit groups into bytes, discarding the 2 or 4 leftover bits of a
final group of 3 or 2 characters (forgiving-base64 behaviour). -/
def sixesToBytes : List Nat → List Nat
  | a :: b :: c :: d :: rest =>
      (a * 4 + b / 16) :: ((b % 16) * 16 + c / 4) :: ((c % 4) * 64 + d)
        :: sixesToBytes rest
  | [a, b, c] => [a * 4 + b / 16, (b % 16) * 16 + c / 4]
  | [a, b] => [a * 4 + b / 16]
  | [_] => []
  | [] => []

/-- The url-safe substitution applied by the (spec-modelled) encoder. -/
def subUrl (c : Char) : Char :=
  if c = '+' then '-' else if c = '/' then '_' else c

/-- The inverse substitution applied by `base64UrlDecode`
(the two global `str.replace` calls turning dash into plus and
underscore into slash). -/
def unsubUrl (c : Char) : Char :=
  if c = '-' then '+' else if c = '_' then '/' else c

/-- Modelled from the spec: the URL-safe base64 encoder (`base64UrlEncode`)
is not in src/; per the spec it is standard base64 with the URL-safe
character substitutions and without padding. -/
def base64UrlEncode (bytes : List Nat) : List Char :=
  (bytesToSixes bytes).map (fun s => subUrl (sixToChar s))

/-- Remove one trailing `'='` if present (one step of forgiving-base64
padding removal). -/
def dropLastEq (cs : List Char) : List Char :=
  if cs.getLast? = some '=' then cs.dropLast else cs

def decodeSixes : List Char → Option (List Nat)
  | [] => some []
  | c :: rest =>
    match charToSix c, decodeSixes rest with
    | some s, some ss => some (s :: ss)
    | _, _ => none

/-- Model of the `atob` builtin (WHATWG forgiving-base64 decode, modulo
whitespace): strip up to two trailing `'='` when the length is a multiple
of 4, reject a length ≡ 1 (mod 4), reject characters outside the
alphabet, unpack 6-bit groups. -/
def atobModel (cs : List Char) : Option (List Nat) :=
  let data := if cs.length % 4 = 0 then dropLastEq (dropLastEq cs) else cs
  if data.length % 4 = 1 then none
  else (decodeSixes data).map sixesToBytes

/-- `base64UrlDecode` (config.ts lines 53-62): substitute the URL-safe
characters back, pad with `'='` to a multiple of 4, call `atob`. -/
def base64UrlDecode (str : List Char) : Option (List Nat) :=
  let base64 := str.map unsubUrl
  let padded :=
    if base64.length % 4 = 0 then base64
    else base64 ++ List.replicate (4 - base64.length % 4) '='
  atobModel padded

/-! ## JSON model

`JSON.parse` and `JSON.stringify` are platform builtins (not code of this
repository).  `jsonParse` models `JSON.parse` as a recursive-descent
parser over the exact JSON grammar of the token payloads: objects,
arrays, strings with escapes, integer numbers, `true`/`false`/`null`.
Model restrictions (noted, unexercised by the claims): no insignificant
whitespace, no fraction/exponent parts in numbers, no leading-zero
rejection. -/

inductive JsonValue where
  | null : JsonValue
  | bool : Bool → JsonValue
  | num : Int → JsonValue
  | str : List Char → JsonValue
  | arr : List JsonValue → JsonValue
  | obj : List (List Char × JsonValue) → JsonValue

def hexVal (c : Char) : Option Nat :=
  if 48 ≤ c.toNat ∧ c.toNat ≤ 57 then some (c.toNat - 48)
  else if 97 ≤ c.toNat ∧ c.toNat ≤ 102 then some (c.toNat - 87)
  else if 65 ≤ c.toNat ∧ c.toNat ≤ 70 then some (c.toNat - 55)
  else none

/-- Single-character escapes accepted after a backslash in a JSON string. -/
def unescape (e : Char) : Option Char :=
  if e = quoteCh then some quoteCh
  else if e = backslashCh then some backslashCh
  else if e = '/' then some '/'
  else if e = 'b' then some (Char.ofNat 8)
  else if e = 'f' then some (Char.ofNat 12)
  else if e = 'n' then some (Char.ofNat 10)
  else if e = 'r' then some (Char.ofNat 13)
  else if e = 't' then some (Char.ofNat 9)
  else none

/-- Parse the body of a JSON string (after the opening quote), returning
the decoded content and the input remaining after the closing quote. -/
def parseStr : List Char → Option (List Char × List Char)
  | [] => none
  | c :: rest =>
    if c = quoteCh then some ([], rest)
    else if c = backslashCh then
      match rest with
      | [] => none
      | e :: rest2 =>
        if e = 'u' then
          match rest2 with
          | h1 :: h2 :: h3 :: h4 :: rest3 =>
            match hexVal h1, hexVal h2, hexVal h3, hexVal h4 with
            | some a, some b, some c', some d =>
              (parseStr rest3).map
                (fun p => (Char.ofNat (a * 4096 + b * 256 + c' * 16 + d) :: p.1, p.2))
            | _, _, _, _ => none
          | _ => none
        else
          match unescape e with
          | some ch => (parseStr rest2).map (fun p => (ch :: p.1, p.2))
          | none => none
    else if c.toNat < 32 then none
    else (parseStr rest).map (fun p => (c :: p.1, p.2))

def isDig (c : Char) : Bool := 48 ≤ c.toNat && c.toNat ≤ 57

def digVal (c : Char) : Nat := c.toNat - 48

/-- Consume a maximal run of decimal digits, folding them onto `acc`. -/
def takeDigits : List Char → Nat → Nat × List Char
  | [], acc => (acc, [])
  | c :: rest, acc =>
    if isDig c then takeDigits rest (acc * 10 + digVal c) else (acc, c :: rest)

/-- Parse an integer JSON number (optional minus sign, digit run). -/
def parseNum : List Char → Option (JsonValue × List Char)
  | [] => none
  | c :: rest =>
    if c = '-' then
      match rest with
      | [] => none
      | d :: _ =>
        if isDig d then
          let p := takeDigits rest 0
          some (.num (-(p.1 : Int)), p.2)
        else none
    else if isDig c then
      let p := takeDigits (c :: rest) 0
      some (.num (p.1 : Int), p.2)
    else none

mutual

/-- One JSON value; `fuel` bounds the recursion depth (the top-level entry
point passes more fuel than any input can consume). -/
def parseValue : Nat → List Char → Option (JsonValue × List Char)
  | 0, _ => none
  | _ + 1, [] => none
  | fuel + 1, c :: rest =>
    if c = quoteCh then (parseStr rest).map (fun p => (JsonValue.str p.1, p.2))
    else if c = lbraceCh then
      match rest with
      | r0 :: rest1 =>
        if r0 = rbraceCh then some (.obj [], rest1)
        else (parseMembers fuel (r0 :: rest1)).map (fun p => (JsonValue.obj p.1, p.2))
      | [] => none
    else if c = lbrackCh then
      match rest with
      | r0 :: rest1 =>
        if r0 = rbrackCh then some (.arr [], rest1)
        else (parseElems fuel (r0 :: rest1)).map (fun p => (JsonValue.arr p.1, p.2))
      | [] => none
    else if c = 't' then
      match rest with
      | 'r' :: 'u' :: 'e' :: r => some (.bool true, r)
      | _ => none
    else if c = 'f' then
      match rest with
      | 'a' :: 'l' :: 's' :: 'e' :: r => some (.bool false, r)
      | _ => none
    else if c = 'n' then
      match rest with
      | 'u' :: 'l' :: 'l' :: r => some (.null, r)
      | _ => none
    else if c = '-' || isDig c then parseNum (c :: rest)
    else none

/-- The members of a JSON object, after the opening brace (nonempty case);
consumes through the closing brace. -/
def parseMembers : Nat → List Char → Option (List (List Char × JsonValue) × List Char)
  | 0, _ => none
  | fuel + 1, cs =>
    match cs with
    | c :: rest =>
      if c = quoteCh then
        match parseStr rest with
        | none => none
        | some (key, rest1) =>
          match rest1 with
          | ':' :: rest2 =>
            match parseValue fuel rest2 with
            | none => none
            | some (v, rest3) =>
              match rest3 with
              | s :: rest4 =>
                if s = ',' then
                  (parseMembers fuel rest4).map (fun p => ((key, v) :: p.1, p.2))
                else if s = rbraceCh then some ([(key, v)], rest4)
                else none
              | [] => none
          | _ => none
      else none
    | [] => none

/-- The elements of a JSON array, after the opening bracket (nonempty
case); consumes through the closing bracket. -/
def parseElems : Nat → List Char → Option (List JsonValue × List Char)
  | 0, _ => none
  | fuel + 1, cs =>
    match parseValue fuel cs with
    | none => none
    | some (v, rest) =>
      match rest with
      | s :: rest1 =>
        if s = ',' then (parseElems fuel rest1).map (fun p => (v :: p.1, p.2))
        else if s = rbrackCh then some ([v], rest1)
        else none
      | [] => none

end

/-- Model of the `JSON.parse` builtin: one JSON value consuming the whole
input. -/
def jsonParse (cs : List Char) : Option JsonValue :=
  match parseValue (cs.length + 1) cs with
  | some (v, []) => some v
  | _ => none

/-- JS property access `parsedValue.key` for a decoded JSON value: a
lookup in an object (later duplicate keys shadow earlier ones, as in
`JSON.parse`), `undefined` (`none`) on every non-object except `null`
(the `null` case, which throws in JS, is handled by the caller). -/
def lookupKey : List (List Char × JsonValue) → List Char → Option JsonValue
  | [], _ => none
  | (k, x) :: rest, key =>
    match lookupKey rest key with
    | some y => some y
    | none => if k = key then some x else none

def getField (v : JsonValue) (key : List Char) : Option JsonValue :=
  match v with
  | .obj kvs => lookupKey kvs key
  | _ => none

/-- JS truthiness of a field-access result: `undefined`, `null`, `false`,
`0` and the empty string are falsy. -/
def truthy : Option JsonValue → Bool
  | none => false
  | some .null => false
  | some (.bool b) => b
  | some (.num n) => n != 0
  | some (.str s) => !s.isEmpty
  | some (.arr _) => true
  | some (.obj _) => true

/-! ## Token decoder (`parseSessionToken`, config.ts lines 74-114)

The source reads `window.location.pathname` and the current wall clock;
the embedding takes both as parameters (`path`, and `now` = the floor of
seconds since epoch computed by `Math.floor(Date.now() / 1000)`). -/

def missingTokenMsg : String := "No session token in URL path"
def missingFieldsMsg : String := "Invalid session token: missing required fields"
def expiredMsg : String :=
  "Session link has expired. Please get a new viewer link from your session."
def invalidFormatMsg : String := "Invalid session token format"

structure TokenParseResult where
  token : Option JsonValue
  error : Option String
  expired : Bool

def sessionIdKey : List Char := "sessionId".data
def vpnIpKey : List Char := "vpnIp".data
def streamPortKey : List Char := "streamPort".data
def expKey : List Char := "exp".data

/-- JS `String.prototype.lastIndexOf` for a single character: the index
of its last occurrence, `-1` when absent. -/
def jsLastIndexOf (cs : List Char) (c : Char) : Int :=
  match cs with
  | [] => -1
  | a :: rest =>
    let r := jsLastIndexOf rest c
    if r ≥ 0 then r + 1 else if a = c then 0 else -1

/-- Split payload from signature: the substring before the last dot when
the last dot's index is positive, the whole token otherwise
(config.ts lines 85-86). -/
def extractPayload (fullToken : List Char) : List Char :=
  if jsLastIndexOf fullToken '.' > 0 then
    fullToken.take (jsLastIndexOf fullToken '.').toNat
  else fullToken

/-- The fallible middle of the `try` block: base64url-decode the payload,
view the bytes as a one-char-per-byte string (what `atob` returns), parse
it as JSON. `none` models a thrown exception. -/
def decodeAndParse (payload : List Char) : Option JsonValue :=
  match base64UrlDecode payload with
  | none => none
  | some bytes => jsonParse (bytes.map Char.ofNat)

/-- Partial model of JS `ToNumber` on a decoded JSON value, as used by
the coercing comparison `now > parsed.exp`; `none` stands for `NaN`
(every comparison with `NaN` is false).  Only the `num` case is
exercised by tokens with a numeric `exp`. -/
def jsToNumber : JsonValue → Option Int
  | .num n => some n
  | .bool b => some (if b then 1 else 0)
  | .null => some 0
  | .str s =>
    if s.isEmpty then some 0
    else if s.all isDig then some ((takeDigits s 0).1 : Int)
    else
      match s with
      | '-' :: rest =>
        if !rest.isEmpty && rest.all isDig then some (-((takeDigits rest 0).1 : Int))
        else none
      | _ => none
  | _ => none

/-- The coercing comparison `now > expValue`. -/
def jsGtNum (now : Nat) (v : JsonValue) : Bool :=
  match jsToNumber v with
  | some k => (now : Int) > k
  | none => false

/-- Required-field validation and expiration check on the parsed payload
(config.ts lines 92-112).  Property access on `null` throws in JS and is
caught by the surrounding `try`, hence the `null` case returns the
decode-error result. -/
def classify (parsed : JsonValue) (now : Nat) : TokenParseResult :=
  match parsed with
  | .null => ⟨none, some invalidFormatMsg, false⟩
  | p =>
    if !truthy (getField p sessionIdKey) || !truthy (getField p vpnIpKey)
        || !truthy (getField p streamPortKey) then
      ⟨none, some missingFieldsMsg, false⟩
    else if truthy (getField p expKey) then
      if jsGtNum now (match getField p expKey with | some e => e | none => .null) then
        ⟨some p, some expiredMsg, true⟩
      else ⟨some p, none, false⟩
    else ⟨some p, none, false⟩

/-- `parseSessionToken` (config.ts lines 74-114). -/
def parseSessionToken (path : List Char) (now : Nat) : TokenParseResult :=
  let fullToken := path.drop 1
  if fullToken.isEmpty then ⟨none, some missingTokenMsg, false⟩
  else
    match decodeAndParse (extractPayload fullToken) with
    | none => ⟨none, some invalidFormatMsg, false⟩
    | some parsed => classify parsed now

/-! ## Connection parameter resolver (config.ts lines 22-47, 116-156) -/

structure SessionToken where
  v : Int
  sessionId : String
  vpnIp : String
  streamPort : Int
  udpPort : Int
  webrtcPort : Option Int := none
  exp : Option Int := none

structure SynthConfig where
  apiBaseUrl : String
  turnServer : String
  turnUsername : String
  turnPassword : String

/-- The inline defaults of `defaultConfig` (the environment-variable
overrides are absent in this embedding). -/
def defaultConfig : SynthConfig where
  apiBaseUrl := "https://api.cyberneticphysics.com"
  turnServer := "turn:157.245.252.180:3478"
  turnUsername := "isaac"
  turnPassword := "qjRuvE6x0zEc45dtJ11cynRY"

structure RTCIceServer where
  urls : String
  username : Option String := none
  credential : Option String := none

/-- `getIceServers` (config.ts lines 140-156): Google STUN first, TURN
appended when `turnPassword` is truthy (non-empty). -/
def getIceServers (config : SynthConfig) : List RTCIceServer :=
  let servers : List RTCIceServer := [{ urls := "stun:stun.l.google.com:19302" }]
  if config.turnPassword ≠ "" then
    servers ++ [{ urls := config.turnServer, username := some config.turnUsername,
                  credential := some config.turnPassword }]
  else servers

structure ParsedURL where
  protocol : String
  hostname : String
  deriving Repr

/-- Split a character list at the first scheme separator `"://"`. -/
def splitScheme : List Char → Option (List Char × List Char)
  | ':' :: '/' :: '/' :: rest => some ([], rest)
  | c :: rest => (splitScheme rest).map (fun p => (c :: p.1, p.2))
  | [] => none

/-- Modelled from the spec: the `new URL` builtin is not in src/.  Minimal
model for absolute `scheme://host[:port][/path]` URLs: `protocol` is the
scheme plus a colon, `hostname` is the authority up to an optional port
separator (userinfo and normalisation are out of the model's scope). -/
def parseURL (s : String) : Option ParsedURL :=
  match splitScheme s.data with
  | none => none
  | some (scheme, rest) =>
    if scheme.isEmpty then none
    else
      let authority := rest.takeWhile (fun c => c ≠ '/' && c ≠ '?' && c ≠ '#')
      let hostname := authority.takeWhile (fun c => c ≠ ':')
      if hostname.isEmpty then none
      else some ⟨String.mk (scheme ++ [':']), String.mk hostname⟩

structure SignalingProxy where
  server : String
  port : Nat
  path : String
  deriving Repr

/-- `getSignalingProxy` (config.ts lines 124-135); `none` models the
`new URL` constructor throwing on a malformed `apiBaseUrl`. -/
def getSignalingProxy (config : SynthConfig) (session : SessionToken) :
    Option SignalingProxy :=
  (parseURL config.apiBaseUrl).map fun url =>
    { server := url.hostname
      port := if url.protocol = "https:" then 443 else 80
      path := "/v1/stream/" ++ session.vpnIp }

/-! ## Serialization of token payloads

Used by the round-trip properties: `JSON.stringify` (a platform builtin)
applied to a token payload object.  Control characters are emitted as
their escape sequences; the output contains no insignificant
whitespace, matching the builtin. -/

def hexChar (n : Nat) : Char := Char.ofNat (if n < 10 then 48 + n else 87 + n)

/-- The escape sequence `JSON.stringify` emits for one string character. -/
def escChar (c : Char) : List Char :=
  if c = quoteCh then [backslashCh, quoteCh]
  else if c = backslashCh then [backslashCh, backslashCh]
  else if c.toNat = 8 then [backslashCh, 'b']
  else if c.toNat = 9 then [backslashCh, 't']
  else if c.toNat = 10 then [backslashCh, 'n']
  else if c.toNat = 12 then [backslashCh, 'f']
  else if c.toNat = 13 then [backslashCh, 'r']
  else if c.toNat < 32 then
    [backslashCh, 'u', '0', '0', hexChar (c.toNat / 16), hexChar (c.toNat % 16)]
  else [c]

def escapeStr : List Char → List Char
  | [] => []
  | c :: rest => escChar c ++ escapeStr rest

/-- A JSON string literal: quote, escaped content, quote. -/
def strLit (s : List Char) : List Char := quoteCh :: escapeStr s ++ [quoteCh]

def digitChar (d : Nat) : Char := Char.ofNat (48 + d)

/-- Decimal digits of `n`, most significant first; empty for `0`.  The
`fuel` argument (any value `≥ n`) keeps the recursion structural. -/
def natToCharsAux : Nat → Nat → List Char
  | 0, _ => []
  | fuel + 1, n =>
    if n = 0 then [] else natToCharsAux fuel (n / 10) ++ [digitChar (n % 10)]

def natToChars (n : Nat) : List Char :=
  if n = 0 then ['0'] else natToCharsAux n n

def intToChars (i : Int) : List Char :=
  if i < 0 then '-' :: natToChars i.natAbs else natToChars i.toNat

/-- Serialization of the scalar member values appearing in a token
payload (strings and integer numbers; the remaining constructors do not
occur as payload members). -/
def scalarChars : JsonValue → List Char
  | .str s => strLit s
  | .num n => intToChars n
  | .bool true => "true".data
  | .bool false => "false".data
  | _ => "null".data

def serMember (m : List Char × JsonValue) : List Char :=
  strLit m.1 ++ ':' :: scalarChars m.2

def joinComma : List (List Char) → List Char
  | [] => []
  | [m] => m
  | m :: rest => m ++ ',' :: joinComma rest

/-- A payload object in the shape `JSON.stringify` receives it: the
`SessionToken` fields in interface order, the optional ones omitted when
absent (stringify skips `undefined` members). -/
structure TokenPayload where
  v : Int
  sessionId : List Char
  vpnIp : List Char
  streamPort : Int
  udpPort : Int
  webrtcPort : Option Int := none
  exp : Option Int := none

def payloadKvs (p : TokenPayload) : List (List Char × JsonValue) :=
  [("v".data, .num p.v), ("sessionId".data, .str p.sessionId),
   ("vpnIp".data, .str p.vpnIp), ("streamPort".data, .num p.streamPort),
   ("udpPort".data, .num p.udpPort)]
  ++ (match p.webrtcPort with
      | some w => [("webrtcPort".data, JsonValue.num w)]
      | none => [])
  ++ (match p.exp with
      | some e => [("exp".data, JsonValue.num e)]
      | none => [])

/-- The JSON value `JSON.parse` recovers from a serialized payload. -/
def payloadToJson (p : TokenPayload) : JsonValue := .obj (payloadKvs p)

/-- Modelled from the spec: `JSON.stringify` (a platform builtin, not in
src/) applied to a token payload object. -/
def serializePayload (p : TokenPayload) : List Char :=
  lbraceCh :: joinComma ((payloadKvs p).map serMember) ++ [rbraceCh]

/-! ## Lemmas: base64 transcoding -/

theorem sixesToBytes_bytesToSixes :
    ∀ bs : List Nat, (∀ x ∈ bs, x < 256) → sixesToBytes (bytesToSixes bs) = bs
  | [], _ => rfl
  | [a], _ => by
    simp only [bytesToSixes, sixesToBytes, List.cons.injEq, and_true]
    omega
  | [a, b], h => by
    have hb : b < 256 := h b (by simp)
    simp only [bytesToSixes, sixesToBytes, List.cons.injEq, and_true]
    constructor <;> omega
  | a :: b :: c :: rest, h => by
    have hb : b < 256 := h b (by simp)
    have hc : c < 256 := h c (by simp)
    have ih := sixesToBytes_bytesToSixes rest (fun x hx => h x (by simp [hx]))
    simp only [bytesToSixes, sixesToBytes, List.cons.injEq]
    exact ⟨by omega, by omega, by omega, ih⟩

theorem bytesToSixes_lt :
    ∀ bs : List Nat, (∀ x ∈ bs, x < 256) → ∀ s ∈ bytesToSixes bs, s < 64
  | [], _ => by simp [bytesToSixes]
  | [a], h => by
    have ha : a < 256 := h a (by simp)
    intro s hs
    simp only [bytesToSixes, List.mem_cons, List.not_mem_nil, or_false] at hs
    rcases hs with rfl | rfl <;> omega
  | [a, b], h => by
    have ha : a < 256 := h a (by simp)
    have hb : b < 256 := h b (by simp)
    intro s hs
    simp only [bytesToSixes, List.mem_cons, List.not_mem_nil, or_false] at hs
    rcases hs with rfl | rfl | rfl <;> omega
  | a :: b :: c :: rest, h => by
    have ha : a < 256 := h a (by simp)
    have hb : b < 256 := h b (by simp)
    have hc : c < 256 := h c (by simp)
    have ih := bytesToSixes_lt rest (fun x hx => h x (by simp [hx]))
    intro s hs
    simp only [bytesToSixes, List.mem_cons] at hs
    rcases hs with rfl | rfl | rfl | rfl | hs
    · omega
    · omega
    · omega
    · omega
    · exact ih s hs

theorem bytesToSixes_mod :
    ∀ bs : List Nat, (bytesToSixes bs).length % 4 = 0 ∨
      (bytesToSixes bs).length % 4 = 2 ∨ (bytesToSixes bs).length % 4 = 3
  | [] => by simp [bytesToSixes]
  | [_] => by simp [bytesToSixes]
  | [_, _] => by simp [bytesToSixes]
  | _ :: _ :: _ :: rest => by
    have ih := bytesToSixes_mod rest
    simp only [bytesToSixes, List.length_cons]
    omega

theorem charToSix_sixToChar : ∀ s, s < 64 → charToSix (sixToChar s) = some s := by decide

theorem unsub_sub_sixToChar : ∀ s, s < 64 → unsubUrl (subUrl (sixToChar s)) = sixToChar s := by
  decide

theorem sixToChar_ne_pad : ∀ s, s < 64 → sixToChar s ≠ '=' := by decide

theorem encChar_ne_dot : ∀ s, s < 64 → subUrl (sixToChar s) ≠ '.' := by decide

theorem decodeSixes_map :
    ∀ ss : List Nat, (∀ s ∈ ss, s < 64) → decodeSixes (ss.map sixToChar) = some ss := by
  intro ss
  induction ss with
  | nil => intro _; rfl
  | cons s rest ih =>
    intro h
    have hs : s < 64 := h s (by simp)
    simp only [List.map_cons, decodeSixes, charToSix_sixToChar s hs,
      ih (fun x hx => h x (by simp [hx]))]

theorem dropLastEq_of_no_pad (cs : List Char) (h : ∀ c ∈ cs, c ≠ '=') :
    dropLastEq cs = cs := by
  unfold dropLastEq
  cases hl : cs.getLast? with
  | none => simp
  | some a =>
    have ha : a ≠ '=' := h a (List.mem_of_getLast?_eq_some hl)
    simp [ha]

theorem dropLastEq_append_pad (cs : List Char) : dropLastEq (cs ++ ['=']) = cs := by
  unfold dropLastEq
  rw [List.getLast?_concat]
  simp

theorem atobModel_def (cs : List Char) :
    atobModel cs =
      (if (if cs.length % 4 = 0 then dropLastEq (dropLastEq cs) else cs).length % 4 = 1
        then none
        else (decodeSixes
          (if cs.length % 4 = 0 then dropLastEq (dropLastEq cs) else cs)).map sixesToBytes) :=
  rfl

theorem base64UrlDecode_def (str : List Char) :
    base64UrlDecode str =
      atobModel (if (str.map unsubUrl).length % 4 = 0 then str.map unsubUrl
        else str.map unsubUrl ++ List.replicate (4 - (str.map unsubUrl).length % 4) '=') :=
  rfl

theorem base64UrlDecode_encode (bs : List Nat) (h : ∀ x ∈ bs, x < 256) :
    base64UrlDecode (base64UrlEncode bs) = some bs := by
  have hlt := bytesToSixes_lt bs h
  have hne : ∀ c ∈ (bytesToSixes bs).map sixToChar, c ≠ '=' := by
    intro c hc
    rcases List.mem_map.mp hc with ⟨s, hs, rfl⟩
    exact sixToChar_ne_pad s (hlt s hs)
  have hmap : (base64UrlEncode bs).map unsubUrl = (bytesToSixes bs).map sixToChar := by
    unfold base64UrlEncode
    rw [List.map_map]
    exact List.map_congr_left (fun s hs => unsub_sub_sixToChar s (hlt s hs))
  have hdec : (decodeSixes ((bytesToSixes bs).map sixToChar)).map sixesToBytes = some bs := by
    rw [decodeSixes_map _ hlt, Option.map_some']
    exact congrArg some (sixesToBytes_bytesToSixes bs h)
  have hlen : ((bytesToSixes bs).map sixToChar).length = (bytesToSixes bs).length :=
    List.length_map _ _
  rw [base64UrlDecode_def, hmap, hlen]
  rcases bytesToSixes_mod bs with hmod | hmod | hmod
  · rw [if_pos hmod, atobModel_def, hlen, if_pos hmod,
      dropLastEq_of_no_pad _ hne, dropLastEq_of_no_pad _ hne, hlen,
      if_neg (by omega)]
    exact hdec
  · rw [if_neg (by omega)]
    have hrep : List.replicate (4 - (bytesToSixes bs).length % 4) '=' = ['=', '='] := by
      rw [hmod]; rfl
    have hassoc : (bytesToSixes bs).map sixToChar ++ ['=', '='] =
        (((bytesToSixes bs).map sixToChar ++ ['=']) ++ ['=']) := by
      rw [List.append_assoc]; rfl
    have hlen2 : (((bytesToSixes bs).map sixToChar ++ ['=']) ++ ['=']).length % 4 = 0 := by
      simp only [List.length_append, List.length_cons, List.length_nil, hlen]
      omega
    have hmod1 : ¬ ((bytesToSixes bs).length % 4 = 1) := by omega
    rw [hrep, hassoc, atobModel_def, if_pos hlen2,
      dropLastEq_append_pad, dropLastEq_append_pad, hlen, if_neg hmod1]
    exact hdec
  · rw [if_neg (by omega)]
    have hrep : List.replicate (4 - (bytesToSixes bs).length % 4) '=' = ['='] := by
      rw [hmod]; rfl
    have hlen2 : ((bytesToSixes bs).map sixToChar ++ ['=']).length % 4 = 0 := by
      simp only [List.length_append, List.length_cons, List.length_nil, hlen]
      omega
    have hmod1 : ¬ ((bytesToSixes bs).length % 4 = 1) := by omega
    rw [hrep, atobModel_def, if_pos hlen2,
      dropLastEq_append_pad, dropLastEq_of_no_pad _ hne, hlen, if_neg hmod1]
    exact hdec

/-! ## Lemmas: payload / signature split -/

theorem jsLastIndexOf_of_not_mem {c : Char} :
    ∀ cs : List Char, c ∉ cs → jsLastIndexOf cs c = -1
  | [], _ => rfl
  | a :: rest, h => by
    have hr : jsLastIndexOf rest c = -1 :=
      jsLastIndexOf_of_not_mem rest (fun hm => h (List.mem_cons_of_mem a hm))
    have hac : ¬a = c := fun hac => h (hac ▸ List.mem_cons_self a rest)
    simp only [jsLastIndexOf, hr]
    rw [if_neg (by omega), if_neg hac]

theorem jsLastIndexOf_cons (a : Char) (t : List Char) (c : Char) :
    jsLastIndexOf (a :: t) c =
      (if jsLastIndexOf t c ≥ 0 then jsLastIndexOf t c + 1
       else if a = c then 0 else -1) := rfl

theorem jsLastIndexOf_append_last {c : Char} :
    ∀ p sig : List Char, c ∉ sig → jsLastIndexOf (p ++ c :: sig) c = (p.length : Int)
  | [], sig, h => by
    rw [List.nil_append, jsLastIndexOf_cons, jsLastIndexOf_of_not_mem sig h,
      if_neg (by omega), if_pos rfl]
    rfl
  | a :: p', sig, h => by
    have ih := jsLastIndexOf_append_last p' sig h
    rw [List.cons_append, jsLastIndexOf_cons, ih, if_pos (by omega)]
    simp only [List.length_cons]
    push_cast
    ring

theorem extractPayload_split (p sig : List Char) (hsig : '.' ∉ sig) (hp : p ≠ []) :
    extractPayload (p ++ '.' :: sig) = p := by
  have hlen : 0 < p.length := List.length_pos.mpr hp
  unfold extractPayload
  rw [jsLastIndexOf_append_last p sig hsig, if_pos (by omega)]
  have : ((p.length : Int)).toNat = p.length := rfl
  rw [this, List.take_left]

theorem extractPayload_no_dot (ft : List Char) (h : '.' ∉ ft) : extractPayload ft = ft := by
  unfold extractPayload
  rw [jsLastIndexOf_of_not_mem ft h, if_neg (by omega)]

/-! ## Lemmas: numbers print/parse -/

/-- The remaining input does not begin with a decimal digit (so a digit
run parsed in front of it stops exactly there). -/
def headNotDigit : List Char → Prop
  | [] => True
  | c :: _ => isDig c = false

theorem isDig_digitChar : ∀ d, d < 10 → isDig (digitChar d) = true := by decide

theorem digVal_digitChar : ∀ d, d < 10 → digVal (digitChar d) = d := by decide

theorem takeDigits_stop (rest : List Char) (acc : Nat) (h : headNotDigit rest) :
    takeDigits rest acc = (acc, rest) := by
  cases rest with
  | nil => rfl
  | cons c t =>
    simp only [headNotDigit] at h
    simp only [takeDigits, h]
    rfl

theorem takeDigits_aux :
    ∀ (fuel n : Nat), n ≤ fuel → ∀ (rest : List Char) (acc : Nat),
      takeDigits (natToCharsAux fuel n ++ rest) acc =
        takeDigits rest (acc * 10 ^ (natToCharsAux fuel n).length + n)
  | 0, n, hn, rest, acc => by
    have : n = 0 := by omega
    subst this
    simp [natToCharsAux]
  | fuel + 1, n, hn, rest, acc => by
    by_cases h0 : n = 0
    · subst h0
      simp [natToCharsAux]
    · have hstep : natToCharsAux (fuel + 1) n =
          natToCharsAux fuel (n / 10) ++ [digitChar (n % 10)] := by
        simp [natToCharsAux, h0]
      have hle : n / 10 ≤ fuel := by omega
      rw [hstep, List.append_assoc, takeDigits_aux fuel (n / 10) hle, List.singleton_append]
      have hd : isDig (digitChar (n % 10)) = true := isDig_digitChar _ (by omega)
      simp only [takeDigits, hd, if_pos, digVal_digitChar (n % 10) (by omega),
        List.length_append, List.length_cons, List.length_nil]
      congr 1
      have h1 : n / 10 * 10 + n % 10 = n := by omega
      calc (acc * 10 ^ (natToCharsAux fuel (n / 10)).length + n / 10) * 10 + n % 10
          = acc * 10 ^ (natToCharsAux fuel (n / 10)).length * 10 + (n / 10 * 10 + n % 10) := by
            ring
        _ = acc * 10 ^ ((natToCharsAux fuel (n / 10)).length + (0 + 1)) + n := by
            rw [h1, pow_succ, ← mul_assoc]

theorem takeDigits_natToChars (n : Nat) (rest : List Char) (h : headNotDigit rest) :
    takeDigits (natToChars n ++ rest) 0 = (n, rest) := by
  by_cases h0 : n = 0
  · subst h0
    show takeDigits ('0' :: rest) 0 = (0, rest)
    simp only [takeDigits, show isDig '0' = true from rfl, if_pos]
    rw [takeDigits_stop rest _ h]
    rfl
  · rw [show natToChars n = natToCharsAux n n from by simp [natToChars, h0]]
    rw [takeDigits_aux n n le_rfl, takeDigits_stop rest _ h]
    simp

theorem natToCharsAux_all_dig :
    ∀ fuel n, ∀ c ∈ natToCharsAux fuel n, isDig c = true
  | 0, _ => by simp [natToCharsAux]
  | fuel + 1, n => by
    intro c hc
    by_cases h0 : n = 0
    · subst h0; simp [natToCharsAux] at hc
    · simp only [natToCharsAux, if_neg h0, List.mem_append, List.mem_cons,
        List.not_mem_nil, or_false] at hc
      rcases hc with hc | rfl
      · exact natToCharsAux_all_dig fuel (n / 10) c hc
      · exact isDig_digitChar _ (by omega)

theorem natToChars_all_dig (n : Nat) : ∀ c ∈ natToChars n, isDig c = true := by
  by_cases h0 : n = 0
  · subst h0; intro c hc
    simp only [natToChars, if_pos, List.mem_singleton] at hc
    subst hc; rfl
  · intro c hc
    exact natToCharsAux_all_dig n n c (by simpa [natToChars, h0] using hc)

theorem natToChars_ne_nil (n : Nat) : natToChars n ≠ [] := by
  by_cases h0 : n = 0
  · subst h0; simp [natToChars]
  · have : ∀ fuel m, m ≠ 0 → m ≤ fuel → natToCharsAux fuel m ≠ [] := by
      intro fuel
      cases fuel with
      | zero => intro m hm hle; omega
      | succ f =>
        intro m hm _
        simp [natToCharsAux, hm]
    simp only [natToChars, if_neg h0]
    exact this n n h0 le_rfl

theorem natToChars_head (n : Nat) :
    ∃ d ds, natToChars n = d :: ds ∧ isDig d = true := by
  cases hh : natToChars n with
  | nil => exact absurd hh (natToChars_ne_nil n)
  | cons d ds =>
    exact ⟨d, ds, rfl, natToChars_all_dig n d (hh ▸ List.mem_cons_self d ds)⟩

theorem isDig_not_special (c : Char) (h : isDig c = true) :
    c ≠ quoteCh ∧ c ≠ lbraceCh ∧ c ≠ lbrackCh ∧ c ≠ 't' ∧ c ≠ 'f' ∧ c ≠ 'n' ∧
      c ≠ '-' ∧ c ≠ backslashCh := by
  refine ⟨?_, ?_, ?_, ?_, ?_, ?_, ?_, ?_⟩ <;>
    (intro hc; subst hc; exact absurd h (by decide))

theorem parseNum_intToChars (i : Int) (rest : List Char) (h : headNotDigit rest) :
    parseNum (intToChars i ++ rest) = some (.num i, rest) := by
  by_cases hneg : i < 0
  · have hout : intToChars i = '-' :: natToChars i.natAbs := by
      simp [intToChars, hneg]
    obtain ⟨d, ds, hds, hdig⟩ := natToChars_head i.natAbs
    rw [hout, List.cons_append, hds, List.cons_append]
    simp only [parseNum, if_pos rfl, ← List.cons_append, ← hds, hdig, if_pos]
    rw [takeDigits_natToChars i.natAbs rest h]
    have : -((i.natAbs : Nat) : Int) = i := by omega
    rw [this]
  · have hout : intToChars i = natToChars i.toNat := by
      simp [intToChars, hneg]
    obtain ⟨d, ds, hds, hdig⟩ := natToChars_head i.toNat
    have hne := isDig_not_special d hdig
    rw [hout, hds, List.cons_append]
    simp only [parseNum, if_neg hne.2.2.2.2.2.2.1, hdig, if_pos, ← List.cons_append, ← hds]
    rw [takeDigits_natToChars i.toNat rest h]
    have : ((i.toNat : Nat) : Int) = i := by omega
    rw [this]

/-! ## Lemmas: JSON strings print/parse -/

theorem parseStr_cons_quote (t : List Char) : parseStr (quoteCh :: t) = some ([], t) := by
  rw [parseStr.eq_def]
  simp

theorem parseStr_cons_lit (c : Char) (t : List Char) (h1 : ¬c = quoteCh)
    (h2 : ¬c = backslashCh) (h3 : ¬c.toNat < 32) :
    parseStr (c :: t) = (parseStr t).map (fun p => (c :: p.1, p.2)) := by
  rw [parseStr.eq_def]
  simp only [if_neg h1, if_neg h2, if_neg h3]

theorem parseStr_cons_esc (e ch : Char) (t : List Char) (he : ¬e = 'u')
    (hu : unescape e = some ch) :
    parseStr (backslashCh :: e :: t) = (parseStr t).map (fun p => (ch :: p.1, p.2)) := by
  rw [parseStr.eq_def]
  simp only [if_neg (show ¬backslashCh = quoteCh by decide), if_pos rfl, if_neg he, hu]
  simp

theorem parseStr_cons_u (x1 x2 x3 x4 : Char) (a b c d : Nat) (t : List Char)
    (h1 : hexVal x1 = some a) (h2 : hexVal x2 = some b) (h3 : hexVal x3 = some c)
    (h4 : hexVal x4 = some d) :
    parseStr (backslashCh :: 'u' :: x1 :: x2 :: x3 :: x4 :: t) =
      (parseStr t).map
        (fun p => (Char.ofNat (a * 4096 + b * 256 + c * 16 + d) :: p.1, p.2)) := by
  rw [parseStr.eq_def]
  simp only [if_neg (show ¬backslashCh = quoteCh by decide), if_pos rfl, h1, h2, h3, h4]
  simp

theorem hexVal_hexChar : ∀ x, x < 16 → hexVal (hexChar x) = some x := by decide

theorem parseStr_escape :
    ∀ s rest : List Char, parseStr (escapeStr s ++ quoteCh :: rest) = some (s, rest)
  | [], rest => by
    rw [show escapeStr [] = [] from rfl, List.nil_append, parseStr_cons_quote]
  | c :: s', rest => by
    have ih := parseStr_escape s' rest
    have hstep : escapeStr (c :: s') = escChar c ++ escapeStr s' := rfl
    rw [hstep, List.append_assoc]
    by_cases h1 : c = quoteCh
    · subst h1
      rw [show escChar quoteCh = [backslashCh, quoteCh] from by decide,
        List.cons_append, List.cons_append, List.nil_append,
        parseStr_cons_esc quoteCh quoteCh _ (by decide) (by decide), ih]
      rfl
    · by_cases h2 : c = backslashCh
      · subst h2
        rw [show escChar backslashCh = [backslashCh, backslashCh] from by decide,
          List.cons_append, List.cons_append, List.nil_append,
          parseStr_cons_esc backslashCh backslashCh _ (by decide) (by decide), ih]
        rfl
      · by_cases h3 : c.toNat = 8
        · have hc : c = Char.ofNat 8 := by rw [← h3, Char.ofNat_toNat]
          rw [show escChar c = [backslashCh, 'b'] from by simp [escChar, h1, h2, h3],
            List.cons_append, List.cons_append, List.nil_append,
            parseStr_cons_esc 'b' (Char.ofNat 8) _ (by decide) (by decide), ih, ← hc]
          rfl
        · by_cases h4 : c.toNat = 9
          · have hc : c = Char.ofNat 9 := by rw [← h4, Char.ofNat_toNat]
            rw [show escChar c = [backslashCh, 't'] from by simp [escChar, h1, h2, h3, h4],
              List.cons_append, List.cons_append, List.nil_append,
              parseStr_cons_esc 't' (Char.ofNat 9) _ (by decide) (by decide), ih, ← hc]
            rfl
          · by_cases h5 : c.toNat = 10
            · have hc : c = Char.ofNat 10 := by rw [← h5, Char.ofNat_toNat]
              rw [show escChar c = [backslashCh, 'n'] from by
                  simp [escChar, h1, h2, h3, h4, h5],
                List.cons_append, List.cons_append, List.nil_append,
                parseStr_cons_esc 'n' (Char.ofNat 10) _ (by decide) (by decide), ih, ← hc]
              rfl
            · by_cases h6 : c.toNat = 12
              · have hc : c = Char.ofNat 12 := by rw [← h6, Char.ofNat_toNat]
                rw [show escChar c = [backslashCh, 'f'] from by
                    simp [escChar, h1, h2, h3, h4, h5, h6],
                  List.cons_append, List.cons_append, List.nil_append,
                  parseStr_cons_esc 'f' (Char.ofNat 12) _ (by decide) (by decide), ih, ← hc]
                rfl
              · by_cases h7 : c.toNat = 13
                · have hc : c = Char.ofNat 13 := by rw [← h7, Char.ofNat_toNat]
                  rw [show escChar c = [backslashCh, 'r'] from by
                      simp [escChar, h1, h2, h3, h4, h5, h6, h7],
                    List.cons_append, List.cons_append, List.nil_append,
                    parseStr_cons_esc 'r' (Char.ofNat 13) _ (by decide) (by decide), ih, ← hc]
                  rfl
                · by_cases h8 : c.toNat < 32
                  · rw [show escChar c = [backslashCh, 'u', '0', '0',
                        hexChar (c.toNat / 16), hexChar (c.toNat % 16)] from by
                        simp [escChar, h1, h2, h3, h4, h5, h6, h7, h8],
                      List.cons_append, List.cons_append, List.cons_append,
                      List.cons_append, List.cons_append, List.cons_append,
                      List.nil_append,
                      parseStr_cons_u '0' '0' (hexChar (c.toNat / 16))
                        (hexChar (c.toNat % 16)) 0 0 (c.toNat / 16) (c.toNat % 16) _
                        (by decide) (by decide)
                        (hexVal_hexChar _ (by omega)) (hexVal_hexChar _ (by omega)),
                      ih]
                    have hval : 0 * 4096 + 0 * 256 + c.toNat / 16 * 16 + c.toNat % 16 =
                        c.toNat := by omega
                    rw [hval, Char.ofNat_toNat]
                    rfl
                  · rw [show escChar c = [c] from by
                        simp [escChar, h1, h2, h3, h4, h5, h6, h7, h8],
                      List.cons_append, List.nil_append,
                      parseStr_cons_lit c _ h1 h2 h8, ih]
                    rfl

/-! ## Lemmas: JSON values print/parse -/

/-- The member values a serialized token payload contains: strings and
integer numbers. -/
def scalarOK : JsonValue → Prop
  | .str _ => True
  | .num _ => True
  | _ => False

theorem parseValue_scalar (fuel : Nat) (v : JsonValue) (rest : List Char)
    (hok : scalarOK v) (hrest : headNotDigit rest) :
    parseValue (fuel + 1) (scalarChars v ++ rest) = some (v, rest) := by
  cases v with
  | str s =>
    have hshape : scalarChars (JsonValue.str s) ++ rest =
        quoteCh :: (escapeStr s ++ quoteCh :: rest) := by
      simp [scalarChars, strLit]
    rw [hshape, parseValue.eq_def]
    simp [parseStr_escape s rest]
  | num i =>
    by_cases hneg : i < 0
    · have hout : scalarChars (JsonValue.num i) = '-' :: natToChars i.natAbs := by
        simp [scalarChars, intToChars, hneg]
      rw [hout, List.cons_append, parseValue.eq_def]
      have hpn := parseNum_intToChars i rest hrest
      rw [show intToChars i = '-' :: natToChars i.natAbs from by
        simp [intToChars, hneg], List.cons_append] at hpn
      simp only [if_neg (show ¬('-' = quoteCh) from by decide),
        if_neg (show ¬('-' = lbraceCh) from by decide),
        if_neg (show ¬('-' = lbrackCh) from by decide),
        if_neg (show ¬('-' = 't') from by decide),
        if_neg (show ¬('-' = 'f') from by decide),
        if_neg (show ¬('-' = 'n') from by decide), hpn]
      simp
    · obtain ⟨d, ds, hds, hdig⟩ := natToChars_head i.toNat
      have hout : scalarChars (JsonValue.num i) = d :: ds := by
        simp [scalarChars, intToChars, hneg, hds]
      have hne := isDig_not_special d hdig
      rw [hout, List.cons_append, parseValue.eq_def]
      have hpn := parseNum_intToChars i rest hrest
      rw [show intToChars i = d :: ds from by
        simp [intToChars, hneg, hds], List.cons_append] at hpn
      simp only [if_neg hne.1, if_neg hne.2.1, if_neg hne.2.2.1, if_neg hne.2.2.2.1,
        if_neg hne.2.2.2.2.1, if_neg hne.2.2.2.2.2.1, hdig, Bool.or_true, if_pos, hpn]
  | null => exact absurd hok (by simp [scalarOK])
  | bool b => exact absurd hok (by simp [scalarOK])
  | arr xs => exact absurd hok (by simp [scalarOK])
  | obj kvs => exact absurd hok (by simp [scalarOK])

theorem isDig_rbrace : isDig rbraceCh = false := by decide

theorem isDig_comma : isDig ',' = false := by decide

theorem parseMembers_ser (ms : List (List Char × JsonValue)) :
    ∀ (fuel : Nat) (rest : List Char),
      ms ≠ [] → (∀ m ∈ ms, scalarOK m.2) → 2 * ms.length ≤ fuel →
      parseMembers fuel (joinComma (ms.map serMember) ++ rbraceCh :: rest) =
        some (ms, rest) := by
  induction ms with
  | nil => intro _ _ hne; exact absurd rfl hne
  | cons m ms' ih =>
    obtain ⟨k, v⟩ := m
    intro fuel rest _ hok hfuel
    have hv : scalarOK v := hok (k, v) (by simp)
    have hf2 : 2 * ms'.length + 2 ≤ fuel := by
      simp only [List.length_cons] at hfuel; omega
    obtain ⟨f1, rfl⟩ : ∃ f1, fuel = f1 + 1 := ⟨fuel - 1, by omega⟩
    obtain ⟨f2, rfl⟩ : ∃ f2, f1 = f2 + 1 := ⟨f1 - 1, by omega⟩
    cases ms' with
    | nil =>
      have hshape : joinComma ([(k, v)].map serMember) ++ rbraceCh :: rest =
          quoteCh :: (escapeStr k ++ quoteCh ::
            (':' :: (scalarChars v ++ rbraceCh :: rest))) := by
        simp [joinComma, serMember, strLit, List.append_assoc]
      rw [hshape, parseMembers.eq_def]
      simp only [parseStr_escape k (':' :: (scalarChars v ++ rbraceCh :: rest))]
      rw [parseValue_scalar f2 v (rbraceCh :: rest) hv
        (by simp [headNotDigit, isDig_rbrace])]
      rfl
    | cons m2 mt =>
      have hih := ih (f2 + 1) rest (by simp)
        (fun x hx => hok x (List.mem_cons_of_mem _ hx))
        (by simp only [List.length_cons] at hf2 ⊢; omega)
      have hshape : joinComma (((k, v) :: m2 :: mt).map serMember) ++ rbraceCh :: rest =
          quoteCh :: (escapeStr k ++ quoteCh ::
            (':' :: (scalarChars v ++ ',' ::
              (joinComma ((m2 :: mt).map serMember) ++ rbraceCh :: rest)))) := by
        simp [joinComma, serMember, strLit, List.append_assoc]
      rw [hshape, parseMembers.eq_def]
      simp only [parseStr_escape k _]
      rw [parseValue_scalar f2 v
        (',' :: (joinComma ((m2 :: mt).map serMember) ++ rbraceCh :: rest)) hv
        (by simp [headNotDigit, isDig_comma])]
      change (parseMembers (f2 + 1)
          (joinComma ((m2 :: mt).map serMember) ++ rbraceCh :: rest)).map
            (fun p => ((k, v) :: p.1, p.2)) = _
      rw [hih]
      rfl

theorem joinComma_ser_head (ms : List (List Char × JsonValue)) (h : ms ≠ []) :
    ∃ t, joinComma (ms.map serMember) = quoteCh :: t := by
  cases ms with
  | nil => exact absurd rfl h
  | cons m ms' =>
    obtain ⟨k, v⟩ := m
    cases ms' with
    | nil =>
      exact ⟨escapeStr k ++ quoteCh :: (':' :: scalarChars v),
        by simp [joinComma, serMember, strLit]⟩
    | cons m2 mt =>
      exact ⟨escapeStr k ++ quoteCh ::
          (':' :: (scalarChars v ++ ',' :: joinComma ((m2 :: mt).map serMember))),
        by simp [joinComma, serMember, strLit]⟩

theorem parseValue_object (fuel : Nat) (ms : List (List Char × JsonValue))
    (rest : List Char) (hne : ms ≠ []) (hok : ∀ m ∈ ms, scalarOK m.2)
    (hfuel : 2 * ms.length ≤ fuel) :
    parseValue (fuel + 1) (lbraceCh :: (joinComma (ms.map serMember) ++ rbraceCh :: rest)) =
      some (.obj ms, rest) := by
  obtain ⟨t, ht⟩ := joinComma_ser_head ms hne
  have hcons : joinComma (ms.map serMember) ++ rbraceCh :: rest =
      quoteCh :: (t ++ rbraceCh :: rest) := by rw [ht]; rfl
  rw [hcons]
  change (parseMembers fuel (quoteCh :: (t ++ rbraceCh :: rest))).map
    (fun p => (JsonValue.obj p.1, p.2)) = _
  rw [← hcons, parseMembers_ser ms fuel rest hne hok hfuel]
  rfl

theorem scalarChars_ne_nil (v : JsonValue) : scalarChars v ≠ [] := by
  cases v with
  | str s => simp [scalarChars, strLit]
  | num i =>
    by_cases hneg : i < 0
    · simp [scalarChars, intToChars, hneg]
    · simpa [scalarChars, intToChars, hneg] using natToChars_ne_nil i.toNat
  | bool b => cases b <;> simp [scalarChars]
  | null => simp [scalarChars]
  | arr xs => simp [scalarChars]
  | obj kvs => simp [scalarChars]

theorem serMember_len (m : List Char × JsonValue) : 4 ≤ (serMember m).length := by
  obtain ⟨k, v⟩ := m
  have h1 : 1 ≤ (scalarChars v).length := List.length_pos.mpr (scalarChars_ne_nil v)
  simp only [serMember, strLit, List.length_append, List.length_cons, List.cons_append,
    List.length_nil]
  omega

theorem joinComma_len :
    ∀ ls : List (List Char), (∀ l ∈ ls, 4 ≤ l.length) →
      2 * ls.length ≤ (joinComma ls).length
  | [], _ => by simp [joinComma]
  | [m], h => by
    have := h m (by simp)
    simp only [joinComma, List.length_singleton]
    omega
  | m :: m2 :: t, h => by
    have ih := joinComma_len (m2 :: t) (fun l hl => h l (List.mem_cons_of_mem _ hl))
    have hm := h m (by simp)
    simp only [joinComma, List.length_append, List.length_cons] at ih ⊢
    omega

theorem payloadKvs_ne_nil (p : TokenPayload) : payloadKvs p ≠ [] := by
  simp [payloadKvs]

theorem payloadKvs_scalar (p : TokenPayload) : ∀ m ∈ payloadKvs p, scalarOK m.2 := by
  rcases hw : p.webrtcPort with _ | w <;> rcases he : p.exp with _ | e <;>
    simp [payloadKvs, hw, he, List.forall_mem_cons, scalarOK]

theorem serialize_fuel (p : TokenPayload) :
    2 * (payloadKvs p).length ≤ (serializePayload p).length := by
  have hjoin := joinComma_len ((payloadKvs p).map serMember) (by
    intro l hl
    rcases List.mem_map.mp hl with ⟨m, _, rfl⟩
    exact serMember_len m)
  simp only [List.length_map] at hjoin
  simp only [serializePayload, List.length_cons, List.length_append, List.length_nil]
  omega

theorem jsonParse_serializePayload (p : TokenPayload) :
    jsonParse (serializePayload p) = some (payloadToJson p) := by
  have hne := payloadKvs_ne_nil p
  have hok := payloadKvs_scalar p
  have hjoin := joinComma_len ((payloadKvs p).map serMember) (by
    intro l hl
    rcases List.mem_map.mp hl with ⟨m, _, rfl⟩
    exact serMember_len m)
  simp only [List.length_map] at hjoin
  have hfuel : 2 * (payloadKvs p).length ≤
      (joinComma ((payloadKvs p).map serMember) ++ rbraceCh :: []).length := by
    simp only [List.length_append, List.length_cons, List.length_nil]
    omega
  unfold jsonParse
  have hshape : serializePayload p =
      lbraceCh :: (joinComma ((payloadKvs p).map serMember) ++ rbraceCh :: []) := rfl
  rw [hshape, List.length_cons,
    parseValue_object
      ((joinComma ((payloadKvs p).map serMember) ++ rbraceCh :: []).length + 1)
      (payloadKvs p) [] hne hok (le_trans hfuel (Nat.le_succ _))]
  rfl

/-! ## Lemmas: field lookup on a decoded payload -/

theorem getField_payload_sessionId (p : TokenPayload) :
    getField (payloadToJson p) sessionIdKey = some (JsonValue.str p.sessionId) := by
  rcases hw : p.webrtcPort with _ | w <;> rcases he : p.exp with _ | e <;>
    simp [payloadToJson, payloadKvs, getField, lookupKey, hw, he,
      show ("v".data = sessionIdKey) = False from by decide,
      show ("sessionId".data = sessionIdKey) = True from by decide,
      show ("vpnIp".data = sessionIdKey) = False from by decide,
      show ("streamPort".data = sessionIdKey) = False from by decide,
      show ("udpPort".data = sessionIdKey) = False from by decide,
      show ("webrtcPort".data = sessionIdKey) = False from by decide,
      show ("exp".data = sessionIdKey) = False from by decide]

theorem getField_payload_vpnIp (p : TokenPayload) :
    getField (payloadToJson p) vpnIpKey = some (JsonValue.str p.vpnIp) := by
  rcases hw : p.webrtcPort with _ | w <;> rcases he : p.exp with _ | e <;>
    simp [payloadToJson, payloadKvs, getField, lookupKey, hw, he,
      show ("v".data = vpnIpKey) = False from by decide,
      show ("sessionId".data = vpnIpKey) = False from by decide,
      show ("vpnIp".data = vpnIpKey) = True from by decide,
      show ("streamPort".data = vpnIpKey) = False from by decide,
      show ("udpPort".data = vpnIpKey) = False from by decide,
      show ("webrtcPort".data = vpnIpKey) = False from by decide,
      show ("exp".data = vpnIpKey) = False from by decide]

theorem getField_payload_streamPort (p : TokenPayload) :
    getField (payloadToJson p) streamPortKey = some (JsonValue.num p.streamPort) := by
  rcases hw : p.webrtcPort with _ | w <;> rcases he : p.exp with _ | e <;>
    simp [payloadToJson, payloadKvs, getField, lookupKey, hw, he,
      show ("v".data = streamPortKey) = False from by decide,
      show ("sessionId".data = streamPortKey) = False from by decide,
      show ("vpnIp".data = streamPortKey) = False from by decide,
      show ("streamPort".data = streamPortKey) = True from by decide,
      show ("udpPort".data = streamPortKey) = False from by decide,
      show ("webrtcPort".data = streamPortKey) = False from by decide,
      show ("exp".data = streamPortKey) = False from by decide]

theorem getField_payload_exp (p : TokenPayload) :
    getField (payloadToJson p) expKey =
      (match p.exp with
       | some e => some (JsonValue.num e)
       | none => none) := by
  rcases hw : p.webrtcPort with _ | w <;> rcases he : p.exp with _ | e <;>
    simp [payloadToJson, payloadKvs, getField, lookupKey, hw, he,
      show ("v".data = expKey) = False from by decide,
      show ("sessionId".data = expKey) = False from by decide,
      show ("vpnIp".data = expKey) = False from by decide,
      show ("streamPort".data = expKey) = False from by decide,
      show ("udpPort".data = expKey) = False from by decide,
      show ("webrtcPort".data = expKey) = False from by decide,
      show ("exp".data = expKey) = True from by decide]

/-! ## Lemmas: classification of a freshly serialized payload -/

theorem classify_payload (p : TokenPayload) (now : Nat)
    (hsid : p.sessionId ≠ []) (hvpn : p.vpnIp ≠ []) (hsp : p.streamPort ≠ 0)
    (hexp : ∀ e, p.exp = some e → e ≠ 0 → (now : Int) ≤ e) :
    classify (payloadToJson p) now = ⟨some (payloadToJson p), none, false⟩ := by
  have hgs := getField_payload_sessionId p
  have hgv := getField_payload_vpnIp p
  have hgp := getField_payload_streamPort p
  have hge := getField_payload_exp p
  simp only [payloadToJson] at hgs hgv hgp hge ⊢
  have hts : truthy (getField (JsonValue.obj (payloadKvs p)) sessionIdKey) = true := by
    rw [hgs]; simpa [truthy] using hsid
  have htv : truthy (getField (JsonValue.obj (payloadKvs p)) vpnIpKey) = true := by
    rw [hgv]; simpa [truthy] using hvpn
  have htp : truthy (getField (JsonValue.obj (payloadKvs p)) streamPortKey) = true := by
    rw [hgp]; simpa [truthy] using hsp
  cases he : p.exp with
  | none =>
    have hte : truthy (getField (JsonValue.obj (payloadKvs p)) expKey) = false := by
      rw [hge, he]; rfl
    simp [classify, hts, htv, htp, hte]
  | some e =>
    by_cases h0 : e = 0
    · have hte : truthy (getField (JsonValue.obj (payloadKvs p)) expKey) = false := by
        rw [hge, he, h0]; rfl
      simp [classify, hts, htv, htp, hte]
    · have hte : truthy (getField (JsonValue.obj (payloadKvs p)) expKey) = true := by
        rw [hge, he]; simpa [truthy] using h0
      have hle : ¬((now : Int) > e) := not_lt.mpr (hexp e he h0)
      have hgt : jsGtNum now (JsonValue.num e) = false := by
        simp [jsGtNum, jsToNumber, hle]
      simp [classify, hts, htv, htp, hte, hge, he, hgt]

/-! ## Lemmas: every character of a serialized payload is one byte -/

theorem hexChar_lt : ∀ x, x < 16 → (hexChar x).toNat < 256 := by decide

theorem escChar_bound (c : Char) (hc : c.toNat < 256) :
    ∀ x ∈ escChar c, x.toNat < 256 := by
  intro x hx
  unfold escChar at hx
  split_ifs at hx with h1 h2 h3 h4 h5 h6 h7 h8
  · fin_cases hx <;> decide
  · fin_cases hx <;> decide
  · fin_cases hx <;> decide
  · fin_cases hx <;> decide
  · fin_cases hx <;> decide
  · fin_cases hx <;> decide
  · fin_cases hx <;> decide
  · fin_cases hx
    · decide
    · decide
    · decide
    · decide
    · exact hexChar_lt _ (by omega)
    · exact hexChar_lt _ (by omega)
  · fin_cases hx
    exact hc

theorem escapeStr_bound :
    ∀ s : List Char, (∀ c ∈ s, c.toNat < 256) → ∀ x ∈ escapeStr s, x.toNat < 256
  | [], _ => by simp [escapeStr]
  | c :: t, h => by
    intro x hx
    simp only [escapeStr, List.mem_append] at hx
    rcases hx with hx | hx
    · exact escChar_bound c (h c (by simp)) x hx
    · exact escapeStr_bound t (fun y hy => h y (by simp [hy])) x hx

theorem strLit_bound (s : List Char) (h : ∀ c ∈ s, c.toNat < 256) :
    ∀ x ∈ strLit s, x.toNat < 256 := by
  intro x hx
  simp only [strLit, List.mem_cons, List.mem_append, List.mem_singleton,
    List.not_mem_nil, or_false] at hx
  rcases hx with (rfl | hx) | rfl
  · decide
  · exact escapeStr_bound s h x hx
  · decide

theorem natToChars_bound (n : Nat) : ∀ x ∈ natToChars n, x.toNat < 256 := by
  intro x hx
  have := natToChars_all_dig n x hx
  simp only [isDig, Bool.and_eq_true, decide_eq_true_eq] at this
  omega

theorem intToChars_bound (i : Int) : ∀ x ∈ intToChars i, x.toNat < 256 := by
  intro x hx
  by_cases hneg : i < 0
  · simp only [intToChars, if_pos hneg, List.mem_cons] at hx
    rcases hx with rfl | hx
    · decide
    · exact natToChars_bound _ x hx
  · simp only [intToChars, if_neg hneg] at hx
    exact natToChars_bound _ x hx

theorem scalarChars_bound (v : JsonValue)
    (h : ∀ s, v = JsonValue.str s → ∀ c ∈ s, c.toNat < 256) :
    ∀ x ∈ scalarChars v, x.toNat < 256 := by
  cases v with
  | str s => exact fun x hx => strLit_bound s (h s rfl) x hx
  | num i => exact fun x hx => intToChars_bound i x hx
  | bool b => cases b <;> (intro x hx; fin_cases hx <;> decide)
  | null => intro x hx; fin_cases hx <;> decide
  | arr xs => intro x hx; fin_cases hx <;> decide
  | obj kvs => intro x hx; fin_cases hx <;> decide

theorem joinComma_bound :
    ∀ ls : List (List Char), (∀ l ∈ ls, ∀ x ∈ l, x.toNat < 256) →
      ∀ x ∈ joinComma ls, x.toNat < 256
  | [], _ => by simp [joinComma]
  | [m], h => fun x hx => h m (by simp) x (by simpa [joinComma] using hx)
  | m :: m2 :: t, h => by
    intro x hx
    simp only [joinComma, List.mem_append, List.mem_cons] at hx
    rcases hx with hx | rfl | hx
    · exact h m (by simp) x hx
    · decide
    · exact joinComma_bound (m2 :: t) (fun l hl => h l (List.mem_cons_of_mem _ hl)) x
        (by simpa [joinComma] using hx)

theorem mem_payloadKvs (p : TokenPayload) (m : List Char × JsonValue)
    (hm : m ∈ payloadKvs p) :
    m = ("v".data, .num p.v) ∨ m = ("sessionId".data, .str p.sessionId) ∨
      m = ("vpnIp".data, .str p.vpnIp) ∨ m = ("streamPort".data, .num p.streamPort) ∨
      m = ("udpPort".data, .num p.udpPort) ∨
      (∃ w, m = ("webrtcPort".data, JsonValue.num w)) ∨
      (∃ e, m = ("exp".data, JsonValue.num e)) := by
  rcases hw : p.webrtcPort with _ | w <;> rcases he : p.exp with _ | e <;>
    simp only [payloadKvs, hw, he, List.append_nil, List.nil_append, List.append_assoc,
      List.mem_append, List.mem_cons, List.not_mem_nil, List.mem_singleton,
      or_false, false_or] at hm <;>
    tauto

theorem payloadKvs_key_bound (p : TokenPayload) :
    ∀ m ∈ payloadKvs p, ∀ c ∈ m.1, c.toNat < 256 := by
  intro m hm
  rcases mem_payloadKvs p m hm with rfl | rfl | rfl | rfl | rfl | ⟨w, rfl⟩ | ⟨e, rfl⟩ <;>
    (intro c hc; fin_cases hc <;> decide)

theorem payloadKvs_val_str (p : TokenPayload) (m : List Char × JsonValue)
    (hm : m ∈ payloadKvs p) (s : List Char) (hs : m.2 = .str s) :
    s = p.sessionId ∨ s = p.vpnIp := by
  rcases mem_payloadKvs p m hm with rfl | rfl | rfl | rfl | rfl | ⟨w, rfl⟩ | ⟨e, rfl⟩ <;>
    simp at hs <;> tauto

theorem serializePayload_bound (p : TokenPayload)
    (hb1 : ∀ c ∈ p.sessionId, c.toNat < 256) (hb2 : ∀ c ∈ p.vpnIp, c.toNat < 256) :
    ∀ x ∈ serializePayload p, x.toNat < 256 := by
  intro x hx
  simp only [serializePayload, List.mem_cons, List.mem_append, List.mem_singleton,
    List.not_mem_nil, or_false] at hx
  rcases hx with (rfl | hx) | rfl
  · decide
  · refine joinComma_bound _ ?_ x hx
    intro l hl
    rcases List.mem_map.mp hl with ⟨m, hm, rfl⟩
    intro y hy
    simp only [serMember, List.mem_append, List.mem_cons] at hy
    have hkey : ∀ c ∈ m.1, c.toNat < 256 := payloadKvs_key_bound p m hm
    have hval : ∀ s, m.2 = JsonValue.str s → ∀ c ∈ s, c.toNat < 256 := by
      intro s hs
      rcases payloadKvs_val_str p m hm s hs with rfl | rfl
      · exact hb1
      · exact hb2
    rcases hy with hy | rfl | hy
    · exact strLit_bound m.1 hkey y hy
    · decide
    · exact scalarChars_bound m.2 hval y hy
  · decide

/-! ## Lemmas: the full decode pipeline on an encoded payload -/

theorem map_ofNat_toNat (s : List Char) : (s.map Char.toNat).map Char.ofNat = s := by
  rw [List.map_map]
  calc s.map (Char.ofNat ∘ Char.toNat)
      = s.map id := List.map_congr_left (fun c _ => Char.ofNat_toNat c)
    _ = s := List.map_id s

theorem decodeAndParse_encode (p : TokenPayload)
    (hb1 : ∀ c ∈ p.sessionId, c.toNat < 256) (hb2 : ∀ c ∈ p.vpnIp, c.toNat < 256) :
    decodeAndParse (base64UrlEncode ((serializePayload p).map Char.toNat)) =
      some (payloadToJson p) := by
  have hbytes : ∀ b ∈ (serializePayload p).map Char.toNat, b < 256 := by
    intro b hb
    rcases List.mem_map.mp hb with ⟨c, hc, rfl⟩
    exact serializePayload_bound p hb1 hb2 c hc
  unfold decodeAndParse
  rw [base64UrlDecode_encode _ hbytes]
  show jsonParse (((serializePayload p).map Char.toNat).map Char.ofNat) =
    some (payloadToJson p)
  rw [map_ofNat_toNat, jsonParse_serializePayload]

theorem bytesToSixes_ne_nil : ∀ (a : Nat) (t : List Nat), bytesToSixes (a :: t) ≠ []
  | _, [] => by simp [bytesToSixes]
  | _, [_] => by simp [bytesToSixes]
  | _, _ :: _ :: _ => by simp [bytesToSixes]

theorem base64UrlEncode_no_dot (bs : List Nat) (h : ∀ x ∈ bs, x < 256) :
    '.' ∉ base64UrlEncode bs := by
  intro hmem
  rcases List.mem_map.mp hmem with ⟨x, hx, heq⟩
  exact encChar_ne_dot x (bytesToSixes_lt bs h x hx) heq

theorem serializePayload_head (p : TokenPayload) :
    ∃ t, serializePayload p = lbraceCh :: t := ⟨_, rfl⟩

theorem base64UrlEncode_payload_ne_nil (p : TokenPayload) :
    base64UrlEncode ((serializePayload p).map Char.toNat) ≠ [] := by
  obtain ⟨t, ht⟩ := serializePayload_head p
  rw [ht]
  intro hcontra
  rcases List.map_eq_nil_iff.mp hcontra with hsix
  exact bytesToSixes_ne_nil _ _ hsix

theorem parseSessionToken_def (path : List Char) (now : Nat) :
    parseSessionToken path now =
      (if (path.drop 1).isEmpty = true then ⟨none, some missingTokenMsg, false⟩
       else
         match decodeAndParse (extractPayload (path.drop 1)) with
         | none => ⟨none, some invalidFormatMsg, false⟩
         | some parsed => classify parsed now) := rfl

theorem parseSessionToken_encoded (p : TokenPayload) (now : Nat)
    (hb1 : ∀ c ∈ p.sessionId, c.toNat < 256) (hb2 : ∀ c ∈ p.vpnIp, c.toNat < 256) :
    parseSessionToken ('/' :: base64UrlEncode ((serializePayload p).map Char.toNat)) now =
      classify (payloadToJson p) now := by
  have hbytes : ∀ b ∈ (serializePayload p).map Char.toNat, b < 256 := by
    intro b hb
    rcases List.mem_map.mp hb with ⟨c, hc, rfl⟩
    exact serializePayload_bound p hb1 hb2 c hc
  have hne := base64UrlEncode_payload_ne_nil p
  have hdot := base64UrlEncode_no_dot _ hbytes
  have hemp : (base64UrlEncode ((serializePayload p).map Char.toNat)).isEmpty = false := by
    cases hcase : base64UrlEncode ((serializePayload p).map Char.toNat) with
    | nil => exact absurd hcase hne
    | cons a t => rfl
  rw [parseSessionToken_def]
  have hdrop : ('/' :: base64UrlEncode ((serializePayload p).map Char.toNat)).drop 1 =
      base64UrlEncode ((serializePayload p).map Char.toNat) := rfl
  rw [hdrop, hemp, extractPayload_no_dot _ hdot, decodeAndParse_encode p hb1 hb2]
  rfl

/-! ## Classification lemmas for the claim theorems -/

theorem classify_exp (parsed : JsonValue) (now : Nat) (e : Int)
    (hsid : truthy (getField parsed sessionIdKey) = true)
    (hvpn : truthy (getField parsed vpnIpKey) = true)
    (hsp : truthy (getField parsed streamPortKey) = true)
    (hexp : getField parsed expKey = some (JsonValue.num e)) (h0 : e ≠ 0) :
    classify parsed now =
      (if (now : Int) > e then ⟨some parsed, some expiredMsg, true⟩
       else ⟨some parsed, none, false⟩) := by
  cases parsed with
  | obj kvs =>
    have hte : truthy (getField (JsonValue.obj kvs) expKey) = true := by
      rw [hexp]; simpa [truthy] using h0
    have htnum : truthy (some (JsonValue.num e)) = true := by simp [truthy, h0]
    by_cases hgt : (now : Int) > e <;>
      simp [classify, hsid, hvpn, hsp, hte, hexp, jsGtNum, jsToNumber, hgt, htnum]
  | null => exact absurd hsid (by simp [getField, truthy])
  | bool b => exact absurd hsid (by simp [getField, truthy])
  | num n => exact absurd hsid (by simp [getField, truthy])
  | str t => exact absurd hsid (by simp [getField, truthy])
  | arr xs => exact absurd hsid (by simp [getField, truthy])

/-- The invariant of `TokenParseResult` values stated in claim C10, as an
executable predicate: an expired result carries both a token and an
error, and an error-free result carries a token and is not expired. -/
def resultInvariant (r : TokenParseResult) : Bool :=
  (!r.expired || (r.token.isSome && r.error.isSome)) &&
    (!r.error.isNone || (r.token.isSome && !r.expired))

theorem classify_invariant (parsed : JsonValue) (now : Nat) :
    resultInvariant (classify parsed now) = true := by
  cases parsed <;> simp only [classify] <;> first
    | rfl
    | (split_ifs <;> rfl)

/-! ## Concrete payloads and paths for closed witnesses -/

def encodedPath (p : TokenPayload) : List Char :=
  '/' :: base64UrlEncode ((serializePayload p).map Char.toNat)

def expZeroPayload : TokenPayload :=
  { v := 1, sessionId := ['a'], vpnIp := ['b'], streamPort := 1, udpPort := 1,
    exp := some 0 }

def expOnePayload : TokenPayload :=
  { v := 1, sessionId := ['a'], vpnIp := ['b'], streamPort := 1, udpPort := 1,
    exp := some 1 }

def expFivePayload : TokenPayload :=
  { v := 1, sessionId := ['a'], vpnIp := ['b'], streamPort := 1, udpPort := 1,
    exp := some 5 }

def noVpnPayload : TokenPayload :=
  { v := 1, sessionId := ['a'], vpnIp := [], streamPort := 1, udpPort := 1 }

def okPayload : TokenPayload :=
  { v := 1, sessionId := "sess_x".data, vpnIp := "10.8.0.10".data, streamPort := 49100,
    udpPort := 47998, exp := some 99 }

/-! ## Claim theorems -/

set_option maxRecDepth 100000 in
/-- C1 (counterexample): a decoded payload that passes required-field
validation and whose `exp` field is present with value `0` is NOT flagged
expired at time `1`, although the current time strictly exceeds `exp`:
the code guards the expiration check with JS truthiness, and `0` is
falsy.  This refutes the claim as stated. -/
theorem token_expiry_zero_counterexample :
    decodeAndParse (extractPayload ((encodedPath expZeroPayload).drop 1)) =
        some (payloadToJson expZeroPayload) ∧
      truthy (getField (payloadToJson expZeroPayload) sessionIdKey) = true ∧
      truthy (getField (payloadToJson expZeroPayload) vpnIpKey) = true ∧
      truthy (getField (payloadToJson expZeroPayload) streamPortKey) = true ∧
      getField (payloadToJson expZeroPayload) expKey = some (JsonValue.num 0) ∧
      ((1 : Nat) : Int) > 0 ∧
      parseSessionToken (encodedPath expZeroPayload) 1 =
        ⟨some (payloadToJson expZeroPayload), none, false⟩ :=
  ⟨rfl, rfl, rfl, rfl, rfl, by decide, rfl⟩

/-- C1 (amended): for every decoded payload that passes required-field
validation and whose `exp` field is present as a non-zero number, the
decoder returns the expired result (non-null token, `Expired` error,
`expired = true`) exactly when the current time strictly exceeds `exp`,
and the plain result otherwise. -/
theorem token_expiry_check (path : List Char) (now : Nat) (parsed : JsonValue) (e : Int)
    (hne : ((path.drop 1).isEmpty : Bool) = false)
    (hparse : decodeAndParse (extractPayload (path.drop 1)) = some parsed)
    (hsid : truthy (getField parsed sessionIdKey) = true)
    (hvpn : truthy (getField parsed vpnIpKey) = true)
    (hsp : truthy (getField parsed streamPortKey) = true)
    (hexp : getField parsed expKey = some (JsonValue.num e)) (h0 : e ≠ 0) :
    parseSessionToken path now =
      (if (now : Int) > e then ⟨some parsed, some expiredMsg, true⟩
       else ⟨some parsed, none, false⟩) := by
  rw [parseSessionToken_def, hne]
  simp only [Bool.false_eq_true, if_false]
  rw [hparse]
  exact classify_exp parsed now e hsid hvpn hsp hexp h0

set_option maxRecDepth 100000 in
/-- C1 (witness): a token with `exp = 5` decoded at time `6` (one second
past) is expired; decoded at time `4` (one second before) it is not. -/
theorem token_expiry_check_witness :
    parseSessionToken (encodedPath expFivePayload) 6 =
        ⟨some (payloadToJson expFivePayload), some expiredMsg, true⟩ ∧
      parseSessionToken (encodedPath expFivePayload) 4 =
        ⟨some (payloadToJson expFivePayload), none, false⟩ := by
  constructor
  · have h := token_expiry_check (encodedPath expFivePayload) 6
      (payloadToJson expFivePayload) 5 rfl rfl rfl rfl rfl rfl (by decide)
    exact h.trans (if_pos (by decide))
  · have h := token_expiry_check (encodedPath expFivePayload) 4
      (payloadToJson expFivePayload) 5 rfl rfl rfl rfl rfl rfl (by decide)
    exact h.trans (if_neg (by decide))

/-- The first (STUN) entry of every ICE server list. -/
def stunServer : RTCIceServer := { urls := "stun:stun.l.google.com:19302" }

/-- C2: `getIceServers` always places the public STUN descriptor first;
the list carries a second, TURN, entry (URI, username, password from the
configuration) exactly when `turnPassword` is non-empty, and is the
one-element STUN list when `turnPassword` is empty. -/
theorem ice_servers_shape (config : SynthConfig) :
    (getIceServers config).head? = some stunServer ∧
      (config.turnPassword ≠ "" ↔
        getIceServers config =
          [stunServer,
            { urls := config.turnServer, username := some config.turnUsername,
              credential := some config.turnPassword }]) ∧
      (config.turnPassword = "" → getIceServers config = [stunServer]) := by
  by_cases h : config.turnPassword = "" <;>
    simp [getIceServers, stunServer, h]

def emptyTurnConfig : SynthConfig :=
  { apiBaseUrl := "https://api.cyberneticphysics.com",
    turnServer := "turn:157.245.252.180:3478", turnUsername := "isaac",
    turnPassword := "" }

/-- C2 (witness): with the default configuration (non-empty password)
the list is STUN then TURN; with an empty password it is STUN alone. -/
theorem ice_servers_shape_witness :
    (getIceServers defaultConfig).head? = some stunServer ∧
      getIceServers defaultConfig =
        [stunServer,
          { urls := defaultConfig.turnServer, username := some defaultConfig.turnUsername,
            credential := some defaultConfig.turnPassword }] ∧
      getIceServers emptyTurnConfig = [stunServer] :=
  ⟨(ice_servers_shape defaultConfig).1,
   (ice_servers_shape defaultConfig).2.1.mp (by decide),
   (ice_servers_shape emptyTurnConfig).2.2 rfl⟩

/-- C3: whenever `apiBaseUrl` parses as a URL, `getSignalingProxy`
returns the URL hostname as server, port 443 exactly for the secure-HTTP
scheme (80 otherwise), and the path `/v1/stream/` followed by the
session's VPN IP. -/
theorem signaling_proxy_derivation (config : SynthConfig) (session : SessionToken)
    (u : ParsedURL) (h : parseURL config.apiBaseUrl = some u) :
    getSignalingProxy config session =
      some { server := u.hostname,
             port := if u.protocol = "https:" then 443 else 80,
             path := "/v1/stream/" ++ session.vpnIp } := by
  unfold getSignalingProxy
  rw [h]
  rfl

def exampleConfig : SynthConfig :=
  { apiBaseUrl := "https://api.example.com", turnServer := "", turnUsername := "",
    turnPassword := "" }

def exampleSession : SessionToken :=
  { v := 1, sessionId := "sess", vpnIp := "10.8.0.10", streamPort := 49100,
    udpPort := 47998 }

/-- C3 (witness): `apiBaseUrl = "https://api.example.com"` with
`vpnIp = "10.8.0.10"` yields exactly the triple of the spec's example. -/
theorem signaling_proxy_derivation_witness :
    getSignalingProxy exampleConfig exampleSession =
      some { server := "api.example.com", port := 443, path := "/v1/stream/10.8.0.10" } :=
  (signaling_proxy_derivation exampleConfig exampleSession
    ⟨"https:", "api.example.com"⟩ rfl).trans rfl

/-- C4: when the payload decodes and parses to a record in which
`sessionId`, `vpnIp` or `streamPort` is absent or falsy, the decoder
returns a null token with the `ValidationError` message and
`expired = false`. -/
theorem validation_missing_fields (path : List Char) (now : Nat)
    (kvs : List (List Char × JsonValue))
    (hne : ((path.drop 1).isEmpty : Bool) = false)
    (hparse : decodeAndParse (extractPayload (path.drop 1)) = some (.obj kvs))
    (hbad : truthy (getField (JsonValue.obj kvs) sessionIdKey) = false ∨
      truthy (getField (JsonValue.obj kvs) vpnIpKey) = false ∨
      truthy (getField (JsonValue.obj kvs) streamPortKey) = false) :
    parseSessionToken path now = ⟨none, some missingFieldsMsg, false⟩ := by
  rw [parseSessionToken_def, hne]
  simp only [Bool.false_eq_true, if_false]
  rw [hparse]
  rcases hbad with h | h | h <;> simp [classify, h]

set_option maxRecDepth 100000 in
/-- C4 (witness): a payload with an empty (falsy) `vpnIp` yields the
validation error and a null token. -/
theorem validation_missing_fields_witness :
    parseSessionToken (encodedPath noVpnPayload) 5 =
      ⟨none, some missingFieldsMsg, false⟩ :=
  validation_missing_fields (encodedPath noVpnPayload) 5 (payloadKvs noVpnPayload)
    rfl rfl (Or.inr (Or.inl rfl))

set_option maxRecDepth 100000 in
/-- C5 (counterexample): a payload with non-empty `sessionId`, non-empty
`vpnIp` and non-zero `streamPort`, but with `exp = 1` in the past of the
decode time `2`, round-trips to an `Expired` error rather than a null
error: the claim as stated fails for expired payloads. -/
theorem roundtrip_expired_counterexample :
    expOnePayload.sessionId ≠ [] ∧ expOnePayload.vpnIp ≠ [] ∧
      expOnePayload.streamPort ≠ 0 ∧
      parseSessionToken (encodedPath expOnePayload) 2 =
        ⟨some (payloadToJson expOnePayload), some expiredMsg, true⟩ :=
  ⟨by decide, by decide, by decide, rfl⟩

/-- C5 (amended): for every payload object with non-empty `sessionId`
and `vpnIp` (consisting of single-byte characters, the domain of the
base64 encoder) and non-zero `streamPort`, which is not expired at
decode time (its `exp`, when present and non-zero, is at least the
current time), serializing, URL-safe base64 encoding and decoding via
the Token Decoder returns the payload's JSON object with a null error. -/
theorem roundtrip_decode_ok (p : TokenPayload) (now : Nat)
    (hsid : p.sessionId ≠ []) (hvpn : p.vpnIp ≠ []) (hsp : p.streamPort ≠ 0)
    (hb1 : ∀ c ∈ p.sessionId, c.toNat < 256) (hb2 : ∀ c ∈ p.vpnIp, c.toNat < 256)
    (hexp : ∀ e, p.exp = some e → e ≠ 0 → (now : Int) ≤ e) :
    parseSessionToken (encodedPath p) now = ⟨some (payloadToJson p), none, false⟩ := by
  unfold encodedPath
  rw [parseSessionToken_encoded p now hb1 hb2, classify_payload p now hsid hvpn hsp hexp]

/-- C5 (witness): a full-shaped payload with `exp = 99` decoded at time
`3` round-trips to itself with no error. -/
theorem roundtrip_decode_ok_witness :
    okPayload.sessionId ≠ [] ∧ okPayload.vpnIp ≠ [] ∧ okPayload.streamPort ≠ 0 ∧
      parseSessionToken (encodedPath okPayload) 3 =
        ⟨some (payloadToJson okPayload), none, false⟩ :=
  ⟨by decide, by decide, by decide,
   roundtrip_decode_ok okPayload 3 (by decide) (by decide) (by decide) (by decide)
     (by decide)
     (by intro e he h0; simp only [okPayload, Option.some.injEq] at he; omega)⟩

/-- C6: `base64UrlDecode` is a left inverse of URL-safe base64 encoding
on byte strings (every UTF-8 string, viewed as its bytes), including
inputs whose encoding requires padding. -/
theorem base64_url_roundtrip (bs : List Nat) (h : ∀ x ∈ bs, x < 256) :
    base64UrlDecode (base64UrlEncode bs) = some bs :=
  base64UrlDecode_encode bs h

/-- C6 (witness): a 4-byte input (whose base64 form needs two padding
characters) round-trips. -/
theorem base64_url_roundtrip_witness :
    (∀ x ∈ [0, 255, 16, 32], x < 256) ∧
      base64UrlDecode (base64UrlEncode [0, 255, 16, 32]) = some [0, 255, 16, 32] :=
  ⟨by decide, base64_url_roundtrip [0, 255, 16, 32] (by decide)⟩

/-- C7: the decoder takes as payload the part before the last dot when
that dot sits at a positive index (equivalently, the prefix is
non-empty and the suffix holds no further dot), and the whole remainder
when no dot occurs. -/
theorem payload_signature_split (ft p sig : List Char) :
    (ft = p ++ '.' :: sig → '.' ∉ sig → p ≠ [] → extractPayload ft = p) ∧
      ('.' ∉ ft → extractPayload ft = ft) :=
  ⟨fun hft hsig hp => hft ▸ extractPayload_split p sig hsig hp,
   fun h => extractPayload_no_dot ft h⟩

/-- C7 (witness): `abc.SIG` selects `abc`; a dotless remainder is taken
whole. -/
theorem payload_signature_split_witness :
    extractPayload "abc.SIG".data = "abc".data ∧
      extractPayload "plain".data = "plain".data :=
  ⟨(payload_signature_split "abc.SIG".data "abc".data "SIG".data).1 rfl
      (by decide) (by decide),
   (payload_signature_split "plain".data [] []).2 (by decide)⟩

/-- C8: a URL path that is empty after stripping the leading separator
yields a null token, the `MissingToken` error and `expired = false`. -/
theorem missing_token_on_empty (path : List Char) (now : Nat)
    (h : ((path.drop 1).isEmpty : Bool) = true) :
    parseSessionToken path now = ⟨none, some missingTokenMsg, false⟩ := by
  rw [parseSessionToken_def, h]
  rfl

/-- C8 (witness): the bare path `/` yields `MissingToken`. -/
theorem missing_token_on_empty_witness :
    parseSessionToken "/".data 0 = ⟨none, some missingTokenMsg, false⟩ :=
  missing_token_on_empty "/".data 0 rfl

/-- C9: when base64url decoding or JSON parsing of the payload fails,
the decoder returns a null token with the `DecodeError` message and
`expired = false` instead of propagating the exception. -/
theorem decode_error_on_failure (path : List Char) (now : Nat)
    (hne : ((path.drop 1).isEmpty : Bool) = false)
    (hfail : decodeAndParse (extractPayload (path.drop 1)) = none) :
    parseSessionToken path now = ⟨none, some invalidFormatMsg, false⟩ := by
  rw [parseSessionToken_def, hne]
  simp only [Bool.false_eq_true, if_false]
  rw [hfail]

/-- C9 (witness): a payload with characters outside the base64 alphabet
fails decoding and yields `DecodeError`. -/
theorem decode_error_on_failure_witness :
    parseSessionToken "/%%%".data 7 = ⟨none, some invalidFormatMsg, false⟩ :=
  decode_error_on_failure "/%%%".data 7 rfl rfl

/-- C10: every result of the decoder satisfies the shape invariant: an
expired result carries a non-null token and a non-null error, and an
error-free result carries a non-null token and is not expired. -/
theorem token_result_invariant (path : List Char) (now : Nat) :
    resultInvariant (parseSessionToken path now) = true := by
  rw [parseSessionToken_def]
  by_cases h : ((path.drop 1).isEmpty : Bool) = true
  · rw [if_pos h]
    rfl
  · rw [if_neg h]
    cases hd : decodeAndParse (extractPayload (path.drop 1)) with
    | none => rfl
    | some parsed => exact classify_invariant parsed now

end Synth
